import Mathlib

/-!
Shallow embedding of the annotation-viewer core (text-selection resolver,
PDF annotation geometry extractor, overlay projector, coordinate utilities,
and the annotation store), together with theorems settling the frozen claims
about its natural-language specification.

Numbers are modelled by `ℚ` (exact arithmetic); JavaScript's truthiness of
`0` is modelled explicitly where the source relies on it.
-/

namespace AnnotViewer

/-- Axis-aligned rectangle `{x, y, width, height}` as used by the
intersection helper in `text-selection-utils.ts`. -/
structure Rect where
  x : ℚ
  y : ℚ
  width : ℚ
  height : ℚ
deriving DecidableEq, Repr

/-- Bounding box `{x, y, w, h}` (`BoundingBox` in `types/index.ts`;
the normalized variant has the same shape). -/
structure BBox where
  x : ℚ
  y : ℚ
  w : ℚ
  h : ℚ
deriving DecidableEq, Repr

/-- A transformed text run in viewport space, as built by the loop in
`getTextFromSelection` (`text-selection-utils.ts`, lines 95-151):
position, size, string content and the index of the raw item. -/
structure TextItem where
  x : ℚ
  y : ℚ
  width : ℚ
  height : ℚ
  str : String
  itemIndex : ℕ
deriving DecidableEq, Repr

/-- Result record of the selection resolver (`TextSelection` in
`text-selection-utils.ts`). -/
structure TextSelResult where
  text : String
  bbox : BBox
  normalizedBbox : BBox
  pageNumber : ℕ
  quadPoints : Option (List (List ℚ))
  normalizedQuads : Option (List (List ℚ))
deriving DecidableEq, Repr

/-- JavaScript `v || 0` on a number: `0` is falsy, every other rational is
truthy (used in the space-insertion test of the resolver). -/
def jsOrZero (v : ℚ) : ℚ := if v = 0 then 0 else v

/-- The skip test `!item.str || item.str.trim() === ''`
(`text-selection-utils.ts`, line 114): a string is skipped exactly when it
is empty or trims to empty, i.e. when every character is whitespace. -/
def isBlankStr (s : String) : Bool := s.toList.all (fun c => c.isWhitespace)

/-- Model of `Math.min(...xs)` over a materialized list; the empty case never occurs
at the call sites (the lists always carry the selection bounds). -/
def minList : List ℚ → ℚ
  | [] => 0
  | x :: rest => rest.foldl min x

/-- Model of `Math.max(...xs)` over a materialized list. -/
def maxList : List ℚ → ℚ
  | [] => 0
  | x :: rest => rest.foldl max x

/-- Insert an element into a list, after every element `y` with `le y x`:
the insertion step of a stable insertion sort. -/
def insertBy (le : α → α → Bool) (x : α) : List α → List α
  | [] => [x]
  | y :: ys => if le y x then y :: insertBy le x ys else x :: y :: ys

/-- Stable sort modelling `Array.prototype.sort` with a comparator:
`le a b` holds when the comparator returns a non-positive value on `(a, b)`. -/
def sortBy (le : α → α → Bool) (l : List α) : List α :=
  l.foldl (fun acc x => insertBy le x acc) []

/-- Source function `getIntersectionArea` (`text-selection-utils.ts`, lines 50-63). -/
def getIntersectionArea (rect1 rect2 : Rect) : ℚ :=
  let left := max rect1.x rect2.x
  let right := min (rect1.x + rect1.width) (rect2.x + rect2.width)
  let top := max rect1.y rect2.y
  let bottom := min (rect1.y + rect1.height) (rect2.y + rect2.height)
  if left < right ∧ top < bottom then (right - left) * (bottom - top) else 0

/-- The run's rectangle in viewport coordinates. -/
def itemRect (i : TextItem) : Rect := ⟨i.x, i.y, i.width, i.height⟩

/-- The run's own area `width * height`. -/
def itemArea (i : TextItem) : ℚ := i.width * i.height

/-- The qualification test of the resolver (`text-selection-utils.ts`,
lines 154-163): positive intersection with the selection, positive own
area, and overlap ratio at least `0.3`. -/
def qualifies (sel : Rect) (i : TextItem) : Bool :=
  let inter := getIntersectionArea sel (itemRect i)
  decide (0 < inter) && decide (0 < itemArea i) &&
    decide ((3 / 10 : ℚ) ≤ inter / itemArea i)

/-- Comparator order for the reading-order sort (`text-selection-utils.ts`,
lines 181-189): `le a b` iff the comparator value is `≤ 0` on `(a, b)` —
by Y when the Y difference exceeds 5, by X otherwise. -/
def runLe (a b : TextItem) : Bool :=
  if (5 : ℚ) < |a.y - b.y| then decide (a.y ≤ b.y) else decide (a.x ≤ b.x)

/-- Text assembly after the first run (`text-selection-utils.ts`,
lines 196-208): `prev` carries the previous run; `lastY = prev.y` and
`lastX = prev.x + prev.width` as maintained by the loop, and the gap test
is `item.x - ((lastX + prev.width) || 0) > 2`. -/
def assembleGo (prev : TextItem) : List TextItem → String
  | [] => ""
  | i :: rest =>
    let isNewLine := decide ((5 : ℚ) < |i.y - prev.y|)
    let needsSpace := !isNewLine &&
      decide ((2 : ℚ) < i.x - jsOrZero (prev.x + prev.width + prev.width))
    (if needsSpace then " " else "") ++ i.str ++ assembleGo i rest

/-- Concatenate the sorted runs' strings with the conditional inserted
space (`text-selection-utils.ts`, lines 192-208). -/
def assembleText : List TextItem → String
  | [] => ""
  | i :: rest => i.str ++ assembleGo i rest

/-- Bounding box of a non-null selection (`text-selection-utils.ts`,
lines 212-240): clipped run corners plus the raw selection bounds. -/
def computeBbox (items : List TextItem) (selL selT selR selB : ℚ) : BBox :=
  let allX := (items.map (fun i => [max i.x selL, min (i.x + i.width) selR])).flatten
    ++ [selL, selR]
  let allY := (items.map (fun i => [max i.y selT, min (i.y + i.height) selB])).flatten
    ++ [selT, selB]
  ⟨minList allX, minList allY, maxList allX - minList allX,
    maxList allY - minList allY⟩

/-- Source function `normalizeBbox` (`text-selection-utils.ts`, lines 34-45). -/
def normalizeBbox (bbox : BBox) (pageWidth pageHeight : ℚ) : BBox :=
  ⟨bbox.x / pageWidth, bbox.y / pageHeight, bbox.w / pageWidth, bbox.h / pageHeight⟩

/-- A line group: the first run pushed into the line plus the rest,
mirroring the nonempty `line` arrays of the grouping step. -/
abbrev LineGroup := TextItem × List TextItem

/-- Place one run into the line groups (`text-selection-utils.ts`,
lines 249-258): `findIndex` of the first line whose first run's Y is
within strictly less than 5, else start a new line. -/
def insertLine (item : TextItem) : List LineGroup → List LineGroup
  | [] => [(item, [])]
  | (h, t) :: rest =>
    if |h.y - item.y| < 5 then (h, t ++ [item]) :: rest
    else (h, t) :: insertLine item rest

/-- Group the sorted runs into lines (`text-selection-utils.ts`,
lines 248-258). -/
def groupLines (items : List TextItem) : List LineGroup :=
  items.foldl (fun ls i => insertLine i ls) []

/-- The runs belonging to a line group. -/
def lineMembers (g : LineGroup) : List TextItem := g.1 :: g.2

/-- One quadrilateral per line, clipped to the selection
(`text-selection-utils.ts`, lines 264-277). -/
def lineQuad (selL selT selR selB : ℚ) (g : LineGroup) : List ℚ :=
  let lineX := max (minList ((lineMembers g).map (fun i => i.x))) selL
  let lineY := max (minList ((lineMembers g).map (fun i => i.y))) selT
  let lineRight := min (maxList ((lineMembers g).map (fun i => i.x + i.width))) selR
  let lineBottom := min (maxList ((lineMembers g).map (fun i => i.y + i.height))) selB
  [lineX, lineY, lineRight, lineY, lineRight, lineBottom, lineX, lineBottom]

/-- Quad creation (`text-selection-utils.ts`, lines 245-292): multi-run
selections group into lines sorted by the first run's Y; a single run
emits its clipped rectangle. -/
def computeQuads (sorted : List TextItem) (selL selT selR selB : ℚ) : List (List ℚ) :=
  if 1 < sorted.length then
    (sortBy (fun g1 g2 => decide (g1.1.y ≤ g2.1.y)) (groupLines sorted)).map
      (lineQuad selL selT selR selB)
  else
    match sorted with
    | [i] =>
      [[max i.x selL, max i.y selT,
        min (i.x + i.width) selR, max i.y selT,
        min (i.x + i.width) selR, min (i.y + i.height) selB,
        max i.x selL, min (i.y + i.height) selB]]
    | _ => []

/-- Componentwise normalization of one 8-value quad
(`text-selection-utils.ts`, lines 295-300). -/
def normalizeQuad (pageWidth pageHeight : ℚ) (quad : List ℚ) : List ℚ :=
  [quad.getD 0 0 / pageWidth, quad.getD 1 0 / pageHeight,
   quad.getD 2 0 / pageWidth, quad.getD 3 0 / pageHeight,
   quad.getD 4 0 / pageWidth, quad.getD 5 0 / pageHeight,
   quad.getD 6 0 / pageWidth, quad.getD 7 0 / pageHeight]

/-- The normalized selection rectangle (`text-selection-utils.ts`,
lines 82-92). -/
def mkSelRect (startX startY endX endY : ℚ) : Rect :=
  ⟨min startX endX, min startY endY,
    max startX endX - min startX endX, max startY endY - min startY endY⟩

/-- The resolver's work after qualification (`text-selection-utils.ts`,
lines 176-310): `null` when no run qualified; otherwise sort into reading
order, assemble the text, compute the bounding box, the line quads and
their normalizations. -/
def resolveCore (pageNumber : ℕ) (pageWidth pageHeight selL selT selR selB : ℚ) :
    List TextItem → Option TextSelResult
  | [] => none
  | x :: xs =>
    let sorted := sortBy runLe (x :: xs)
    let text := assembleText sorted
    let bbox := computeBbox sorted selL selT selR selB
    let nb := normalizeBbox bbox pageWidth pageHeight
    let quads := computeQuads sorted selL selT selR selB
    let nquads := quads.map (normalizeQuad pageWidth pageHeight)
    some { text := text, bbox := bbox, normalizedBbox := nb, pageNumber := pageNumber,
           quadPoints := if quads.isEmpty then none else some quads,
           normalizedQuads := if quads.isEmpty then none else some nquads }

/-- Source function `getTextFromSelection` (`text-selection-utils.ts`, lines 68-315) on
already-transformed viewport-space runs: filter empty strings and
non-qualifying runs, then run the post-qualification pipeline. -/
def getTextFromSelection (pageNumber : ℕ) (pageWidth pageHeight : ℚ)
    (items : List TextItem) (startX startY endX endY : ℚ) : Option TextSelResult :=
  resolveCore pageNumber pageWidth pageHeight
    (min startX endX) (min startY endY) (max startX endX) (max startY endY)
    (items.filter (fun i =>
      !(isBlankStr i.str) && qualifies (mkSelRect startX startY endX endY) i))

/-- Two runs land in the same emitted line group of the grouping step. -/
def sameLineGroup (items : List TextItem) (a b : TextItem) : Prop :=
  ∃ g ∈ groupLines items, a ∈ lineMembers g ∧ b ∈ lineMembers g

instance (items : List TextItem) (a b : TextItem) :
    Decidable (sameLineGroup items a b) := by
  unfold sameLineGroup; infer_instance

/-- The reading-order comparator's same-line test
(`text-selection-utils.ts`, line 183): the comparator falls through to the
X comparison exactly when the Y difference does not exceed 5. -/
def sortSameLine (a b : TextItem) : Bool := !(decide ((5 : ℚ) < |a.y - b.y|))

/-- Source function `normalizeCoordinates` (`utils.ts`, referenced from the file handler). -/
def normalizeCoordinates (bbox : BBox) (pageWidth pageHeight : ℚ) : BBox :=
  ⟨bbox.x / pageWidth, bbox.y / pageHeight, bbox.w / pageWidth, bbox.h / pageHeight⟩

/-- Source function `denormalizeCoordinates` (`utils.ts`, referenced from the file handler). -/
def denormalizeCoordinates (normalizedBbox : BBox) (pageWidth pageHeight : ℚ) : BBox :=
  ⟨normalizedBbox.x * pageWidth, normalizedBbox.y * pageHeight,
    normalizedBbox.w * pageWidth, normalizedBbox.h * pageHeight⟩

/-- A native PDF annotation record as consumed by
`extractAnnotationsFromPdfJs` (`pdf-annotation-extractor.ts`): type tag,
rectangle corners, optional flat multi-quad array. -/
structure PdfAnnotRecord where
  subtype : String
  rect : ℚ × ℚ × ℚ × ℚ
  quadPointsRaw : Option (List ℚ)
deriving DecidableEq, Repr

/-- Geometry produced for one extracted annotation. -/
structure ExtractedGeom where
  bbox : BBox
  normalizedBbox : BBox
  quadPoints : Option (List (List ℚ))
  normalizedQuads : Option (List (List ℚ))
deriving DecidableEq, Repr

/-- The quad-processing loop of the extractor
(`pdf-annotation-extractor.ts`, lines 116-145): slice the flat array into
groups of 8, Y-flip each point of the group for `processedQuadPoints`, and
divide the group's *raw* values by the page dimensions for
`normalizedQuads` (exactly as the source does). A trailing group shorter
than 8 is dropped. -/
def processQuads (pageWidth pageHeight : ℚ) :
    List ℚ → List (List ℚ) × List (List ℚ)
  | q0 :: q1 :: q2 :: q3 :: q4 :: q5 :: q6 :: q7 :: rest =>
    let (ps, ns) := processQuads pageWidth pageHeight rest
    ([q0, pageHeight - q1, q2, pageHeight - q3,
      q4, pageHeight - q5, q6, pageHeight - q7] :: ps,
     [q0 / pageWidth, q1 / pageHeight, q2 / pageWidth, q3 / pageHeight,
      q4 / pageWidth, q5 / pageHeight, q6 / pageWidth, q7 / pageHeight] :: ns)
  | _ => ([], [])

/-- Per-record geometry extraction (`pdf-annotation-extractor.ts`,
lines 72-145): skip Popup and Link records, Y-flip the rectangle into a
top-left-origin bbox, normalize it, and process the flat quad array when
present and nonempty. -/
def processAnnotRecord (pageWidth pageHeight : ℚ) (rec : PdfAnnotRecord) :
    Option ExtractedGeom :=
  if rec.subtype = "Popup" ∨ rec.subtype = "Link" then none
  else
    let (x1, y1, x2, y2) := rec.rect
    let bbox : BBox := ⟨min x1 x2, pageHeight - max y1 y2, |x2 - x1|, |y2 - y1|⟩
    let nb := normalizeCoordinates bbox pageWidth pageHeight
    match rec.quadPointsRaw with
    | some qp =>
      if 0 < qp.length then
        let (ps, ns) := processQuads pageWidth pageHeight qp
        some ⟨bbox, nb, some ps, some ns⟩
      else some ⟨bbox, nb, none, none⟩
    | none => some ⟨bbox, nb, none, none⟩

/-- Width/height pair (viewport or measured canvas display size). -/
structure Dim where
  width : ℚ
  height : ℚ
deriving DecidableEq, Repr

/-- A screen rectangle produced by the overlay projector. -/
structure ScreenRect where
  left : ℚ
  top : ℚ
  width : ℚ
  height : ℚ
deriving DecidableEq, Repr

/-- The geometry fields of an annotation the overlay reads. -/
structure OverlayAnnot where
  normalizedQuads : Option (List (List ℚ))
  normalizedBbox : Option BBox
deriving DecidableEq, Repr

/-- Model of `canvasDisplaySize?.width || viewport.width` (`AnnotationOverlay`,
part_000 lines 339-340): missing or zero measured width falls back to the
viewport width. -/
def displayW (canvasDisplaySize : Option Dim) (viewport : Dim) : ℚ :=
  match canvasDisplaySize with
  | none => viewport.width
  | some d => if d.width = 0 then viewport.width else d.width

/-- Model of `canvasDisplaySize?.height || viewport.height`. -/
def displayH (canvasDisplaySize : Option Dim) (viewport : Dim) : ℚ :=
  match canvasDisplaySize with
  | none => viewport.height
  | some d => if d.height = 0 then viewport.height else d.height

/-- One axis-aligned rectangle from one normalized quad (`AnnotationOverlay`,
part_000 lines 362-375): min/max of the quad's four X's and four Y's,
scaled by the display dimensions. -/
def quadScreenRect (dw dh : ℚ) (quad : List ℚ) : ScreenRect :=
  let xs := [quad.getD 0 0, quad.getD 2 0, quad.getD 4 0, quad.getD 6 0]
  let ys := [quad.getD 1 0, quad.getD 3 0, quad.getD 5 0, quad.getD 7 0]
  let minX := minList xs
  let minY := minList ys
  let maxX := maxList xs
  let maxY := maxList ys
  ⟨minX * dw, minY * dh, (maxX - minX) * dw, (maxY - minY) * dh⟩

/-- The overlay projector for one annotation (`AnnotationOverlay`,
part_000 lines 338-444): one rectangle per quad when normalized quads are
present and nonempty; otherwise the scaled normalized bbox, or nothing when
that too is missing. -/
def projectAnnot (canvasDisplaySize : Option Dim) (viewport : Dim)
    (a : OverlayAnnot) : List ScreenRect :=
  let dw := displayW canvasDisplaySize viewport
  let dh := displayH canvasDisplaySize viewport
  let bboxBranch : List ScreenRect :=
    match a.normalizedBbox with
    | none => []
    | some b => [⟨b.x * dw, b.y * dh, b.w * dw, b.h * dh⟩]
  match a.normalizedQuads with
  | some quads => if 0 < quads.length then quads.map (quadScreenRect dw dh) else bboxBranch
  | none => bboxBranch

/-- A stored annotation with the fields the store mutations touch
(`types/index.ts` plus `is_user_created` used by the store). -/
structure StoreAnnot where
  annot_id : String
  page : ℕ
  span_text : String
  entity_type : String
  feedback_type : String
  is_user_created : Bool
  notes : Option String
deriving DecidableEq, Repr

/-- The viewer-state slice of the store (`types/index.ts`). -/
structure ViewerState where
  current_page : ℕ
  current_annot_id : Option String
  scale : ℚ
  is_sidebar_open : Bool
  is_overlay_visible : Bool
deriving DecidableEq, Repr

/-- Document metadata held by the store. -/
structure PdfDocMeta where
  file_name : String
  num_pages : ℕ
deriving DecidableEq, Repr

/-- The zustand store state (`pdfStore`, part_002). -/
structure PdfStoreState where
  pdfDocument : Option Unit
  pdfMeta : Option PdfDocMeta
  isLoading : Bool
  error : Option String
  viewerState : ViewerState
  annots : List StoreAnnot
  annotsByPage : List (ℕ × List StoreAnnot)
deriving DecidableEq, Repr

/-- Source action `deleteUserAnnotation` (part_002, lines 149-171): find the annotation
by id; if absent or not user-created, return the state unchanged; else
filter the id out of the flat list and out of that annotation's page entry
of the page-indexed grouping. -/
def deleteUserAnnot (annotId : String) (s : PdfStoreState) : PdfStoreState :=
  match s.annots.find? (fun a => a.annot_id == annotId) with
  | none => s
  | some a =>
    if !a.is_user_created then s
    else
      { s with
        annots := s.annots.filter (fun b => !(b.annot_id == annotId)),
        annotsByPage := s.annotsByPage.map (fun e =>
          if e.1 = a.page then
            (e.1, e.2.filter (fun b => !(b.annot_id == annotId)))
          else e) }

/-- Concrete run at `y = 0` (counterexample input). -/
def runA : TextItem := ⟨0, 0, 10, 10, "a", 0⟩

/-- Concrete run at `y = 5`, exactly 5 px below `runA`. -/
def runB : TextItem := ⟨0, 5, 10, 10, "b", 1⟩

/-- A concrete user-created stored annotation. -/
def userAnnot : StoreAnnot := ⟨"u1", 1, "alpha", "highlight", "false_negative", true, none⟩

/-- A concrete extracted (non-user-created) stored annotation. -/
def nativeAnnot : StoreAnnot := ⟨"n1", 1, "beta", "highlight", "unreviewed", false, none⟩

/-- A concrete store state holding one user-created and one native
annotation on page 1. -/
def sampleStore : PdfStoreState :=
  { pdfDocument := some ()
    pdfMeta := some ⟨"doc.pdf", 3⟩
    isLoading := false
    error := none
    viewerState := ⟨1, none, 1, true, true⟩
    annots := [userAnnot, nativeAnnot]
    annotsByPage := [(1, [userAnnot, nativeAnnot])] }

/-- A concrete run filling the selection `(0,0)-(30,10)`. -/
def runFull : TextItem := ⟨0, 0, 30, 10, "A", 0⟩

/-- The resolver's result for `runFull` under selection `(0,0)-(30,10)` on
a 600×800 page. -/
def resFull : TextSelResult :=
  { text := "A"
    bbox := ⟨0, 0, 30, 10⟩
    normalizedBbox := ⟨0, 0, 1/20, 1/80⟩
    pageNumber := 1
    quadPoints := some [[0, 0, 30, 0, 30, 10, 0, 10]]
    normalizedQuads := some [[0, 0, 1/20, 0, 1/20, 1/80, 0, 1/80]] }

theorem max_sub_min_eq_abs_sub (a b : ℚ) : max a b - min a b = |b - a| := by
  rcases le_total a b with h | h
  · rw [max_eq_right h, min_eq_left h, abs_of_nonneg (by linarith)]
  · rw [max_eq_left h, min_eq_right h, abs_of_nonpos (by linarith)]
    ring

/-- C8. Round-trip law: for every bounding box and nonzero page dimensions,
denormalizing the normalized box returns the original box exactly. -/
theorem c8_normalize_roundtrip (bbox : BBox) (pageWidth pageHeight : ℚ)
    (hw : pageWidth ≠ 0) (hh : pageHeight ≠ 0) :
    denormalizeCoordinates (normalizeCoordinates bbox pageWidth pageHeight)
      pageWidth pageHeight = bbox := by
  cases bbox with
  | mk x y w h =>
    simp [normalizeCoordinates, denormalizeCoordinates,
      div_mul_cancel₀, hw, hh]

theorem c8_normalize_roundtrip_witness :
    ((612 : ℚ) ≠ 0 ∧ (792 : ℚ) ≠ 0) ∧
      denormalizeCoordinates (normalizeCoordinates ⟨100, 585, 80, 15⟩ 612 792) 612 792
        = ⟨100, 585, 80, 15⟩ :=
  ⟨⟨by norm_num, by norm_num⟩,
    c8_normalize_roundtrip ⟨100, 585, 80, 15⟩ 612 792 (by norm_num) (by norm_num)⟩

/-- C4. For every non-skipped native annotation record with
`rect = [x1, y1, x2, y2]` on a page of height `H` extracted at scale 1,
the produced bbox is `{x: min(x1,x2), y: H - max(y1,y2), w: |x2-x1|,
h: |y2-y1|}`; in particular `rect = [100,200,180,215]` with `H = 800`
yields `{x:100, y:585, w:80, h:15}`. -/
theorem c4_rect_to_bbox (pageWidth pageHeight x1 y1 x2 y2 : ℚ) (st : String)
    (qpr : Option (List ℚ)) (hs : ¬(st = "Popup" ∨ st = "Link")) :
    (processAnnotRecord pageWidth pageHeight ⟨st, (x1, y1, x2, y2), qpr⟩).map
        (fun g => g.bbox)
      = some ⟨min x1 x2, pageHeight - max y1 y2, |x2 - x1|, |y2 - y1|⟩
    ∧ (processAnnotRecord 612 800 ⟨"Highlight", (100, 200, 180, 215), none⟩).map
        (fun g => g.bbox)
      = some ⟨100, 585, 80, 15⟩ := by
  constructor
  · unfold processAnnotRecord
    rw [if_neg hs]
    cases qpr with
    | none => rfl
    | some qp =>
      by_cases hl : 0 < qp.length
      · simp only [hl, if_true]; rfl
      · simp only [hl, if_false]; rfl
  · have hs : ¬(("Highlight" : String) = "Popup" ∨ ("Highlight" : String) = "Link") := by
      decide
    norm_num [processAnnotRecord, normalizeCoordinates, hs]

theorem c4_rect_to_bbox_witness :
    ¬(("Highlight" : String) = "Popup" ∨ ("Highlight" : String) = "Link") ∧
      (processAnnotRecord 612 800
          ⟨"Highlight", (100, 200, 180, 215), none⟩).map (fun g => g.bbox)
        = some ⟨min 100 180, 800 - max 200 215, |(180 : ℚ) - 100|, |(215 : ℚ) - 200|⟩ :=
  ⟨by decide,
    (c4_rect_to_bbox 612 800 100 200 180 215 "Highlight" none (by decide)).1⟩

/-- C2 (code bug). The extractor Y-flips `processedQuadPoints` but builds
`normalizedQuads` from the *unflipped* raw quad values: at the concrete
record below, the normalized quads are the raw coordinates divided by the
page dimensions, and they are not the componentwise division of the
flipped `quadPoints`, so the two arrays are in different Y conventions. -/
theorem c2_normalized_quads_unflipped :
    (processAnnotRecord 100 200
        ⟨"Highlight", (10, 10, 30, 20), some [10, 20, 30, 20, 30, 10, 10, 10]⟩).map
        (fun g => (g.quadPoints, g.normalizedQuads))
      = some (some [[10, 180, 30, 180, 30, 190, 10, 190]],
              some [[1/10, 1/10, 3/10, 1/10, 3/10, 1/20, 1/10, 1/20]])
    ∧ ¬([[(1 : ℚ)/10, 1/10, 3/10, 1/10, 3/10, 1/20, 1/10, 1/20]]
        = [[(10 : ℚ), 180, 30, 180, 30, 190, 10, 190]].map (normalizeQuad 100 200)) := by
  have hs : ¬(("Highlight" : String) = "Popup" ∨ ("Highlight" : String) = "Link") := by
    decide
  constructor
  · norm_num [processAnnotRecord, processQuads, normalizeCoordinates, hs]
  · norm_num [normalizeQuad]

/-- C1 (code bug). For runs `Hello` at `x ∈ [0,10]` and `World` at
`x ∈ [20,30]` on the same line — a 10 px gap, well above 2 px — the
resolver returns `"HelloWorld"` with no inserted space: the space test
double-counts the previous run's width. -/
theorem c1_no_space_despite_gap :
    (2 : ℚ) < 20 - (0 + 10)
    ∧ (getTextFromSelection 1 600 800
        [⟨0, 0, 10, 10, "Hello", 0⟩, ⟨20, 0, 10, 10, "World", 1⟩]
        0 0 30 10).map (fun r => r.text) = some "HelloWorld" := by
  constructor
  · norm_num
  · have h1 : isBlankStr "Hello" = false := by decide
    have h2 : isBlankStr "World" = false := by decide
    norm_num [getTextFromSelection, resolveCore, qualifies, mkSelRect, getIntersectionArea,
      itemRect, itemArea, h1, h2, sortBy, insertBy, runLe, assembleText, assembleGo,
      jsOrZero, List.filter, computeBbox, computeQuads, groupLines, insertLine, lineMembers,
      lineQuad, minList, maxList, normalizeBbox, normalizeQuad, abs]
    rfl

/-- C3. A run qualifies iff its own area is strictly positive and its
overlap ratio with the selection is at least `0.3`, boundary inclusive: a
run covered at exactly 30% qualifies, at 29.9% it does not. -/
theorem c3_overlap_threshold (sel : Rect) (i : TextItem) :
    (qualifies sel i = true ↔
      0 < itemArea i ∧ (3/10 : ℚ) ≤ getIntersectionArea sel (itemRect i) / itemArea i)
    ∧ qualifies (mkSelRect 0 0 3 10) ⟨0, 0, 10, 10, "r", 0⟩ = true
    ∧ qualifies (mkSelRect 0 0 (299/100) 10) ⟨0, 0, 10, 10, "r", 0⟩ = false := by
  refine ⟨?_,
    by norm_num [qualifies, mkSelRect, getIntersectionArea, itemRect, itemArea],
    by norm_num [qualifies, mkSelRect, getIntersectionArea, itemRect, itemArea]⟩
  unfold qualifies
  simp only [Bool.and_eq_true, decide_eq_true_eq]
  constructor
  · rintro ⟨⟨-, h2⟩, h3⟩
    exact ⟨h2, h3⟩
  · rintro ⟨h2, h3⟩
    refine ⟨⟨?_, h2⟩, h3⟩
    have hpos : 0 < getIntersectionArea sel (itemRect i) / itemArea i :=
      lt_of_lt_of_le (by norm_num) h3
    rcases div_pos_iff.mp hpos with ⟨hi, -⟩ | ⟨-, ha⟩
    · exact hi
    · linarith

/-- C5. The overlay projector emits one axis-aligned rectangle per
normalized quad (min/max of the quad's four X's and Y's, scaled by the
display dimensions) when quads are present and nonempty, scales the
normalized bbox otherwise, falls back to the viewport dimensions when no
display size has been measured, and on the concrete Viewport 600×800 /
DisplaySize 300×400 example projects `{0.1, 0.1, 0.2, 0.1}` to
`{left: 30, top: 40, width: 60, height: 40}`. -/
theorem c5_overlay_projection :
    (∀ (cds : Option Dim) (vp : Dim) (a : OverlayAnnot) (quads : List (List ℚ)),
      a.normalizedQuads = some quads → quads ≠ [] →
      projectAnnot cds vp a
        = quads.map (quadScreenRect (displayW cds vp) (displayH cds vp)))
    ∧ (∀ (dw dh : ℚ) (quad : List ℚ),
      quadScreenRect dw dh quad
        = ⟨minList [quad.getD 0 0, quad.getD 2 0, quad.getD 4 0, quad.getD 6 0] * dw,
           minList [quad.getD 1 0, quad.getD 3 0, quad.getD 5 0, quad.getD 7 0] * dh,
           (maxList [quad.getD 0 0, quad.getD 2 0, quad.getD 4 0, quad.getD 6 0]
             - minList [quad.getD 0 0, quad.getD 2 0, quad.getD 4 0, quad.getD 6 0]) * dw,
           (maxList [quad.getD 1 0, quad.getD 3 0, quad.getD 5 0, quad.getD 7 0]
             - minList [quad.getD 1 0, quad.getD 3 0, quad.getD 5 0, quad.getD 7 0]) * dh⟩)
    ∧ (∀ (cds : Option Dim) (vp : Dim) (a : OverlayAnnot) (b : BBox),
      (a.normalizedQuads = none ∨ a.normalizedQuads = some []) →
      a.normalizedBbox = some b →
      projectAnnot cds vp a
        = [⟨b.x * displayW cds vp, b.y * displayH cds vp,
            b.w * displayW cds vp, b.h * displayH cds vp⟩])
    ∧ (∀ vp : Dim, displayW none vp = vp.width ∧ displayH none vp = vp.height)
    ∧ projectAnnot (some ⟨300, 400⟩) ⟨600, 800⟩ ⟨none, some ⟨1/10, 1/10, 1/5, 1/10⟩⟩
        = [⟨30, 40, 60, 40⟩] := by
  refine ⟨?_, ?_, ?_, ?_, by norm_num [projectAnnot, displayW, displayH]⟩
  · intro cds vp a quads hq hne
    unfold projectAnnot
    rw [hq]
    simp only [List.length_pos.mpr hne, if_true]
  · intro dw dh quad
    rfl
  · intro cds vp a b hq hb
    rcases hq with hq | hq
    · unfold projectAnnot
      rw [hq, hb]
    · unfold projectAnnot
      rw [hq, hb]
      rfl
  · intro vp
    exact ⟨rfl, rfl⟩

theorem c5_overlay_projection_witness :
    ((⟨some [[0, 0, 1, 0, 1, 1, 0, 1]], none⟩ : OverlayAnnot).normalizedQuads
        = some [[0, 0, 1, 0, 1, 1, 0, 1]]
      ∧ ([[(0 : ℚ), 0, 1, 0, 1, 1, 0, 1]] : List (List ℚ)) ≠ [])
    ∧ projectAnnot none ⟨600, 800⟩ ⟨some [[0, 0, 1, 0, 1, 1, 0, 1]], none⟩
        = [[(0 : ℚ), 0, 1, 0, 1, 1, 0, 1]].map
            (quadScreenRect (displayW none ⟨600, 800⟩) (displayH none ⟨600, 800⟩)) :=
  ⟨⟨rfl, by decide⟩,
    c5_overlay_projection.1 none ⟨600, 800⟩ ⟨some [[0, 0, 1, 0, 1, 1, 0, 1]], none⟩
      [[0, 0, 1, 0, 1, 1, 0, 1]] rfl (by decide)⟩

/-- C7 (counterexample). Two qualifying runs exactly 5 px apart in Y are
treated as the same line by the reading-order comparator, yet the
line-grouping step that emits quads puts them in different line groups:
the two rules disagree at the 5 px boundary. -/
theorem c7_tolerance_counterexample :
    |runA.y - runB.y| ≤ 5 ∧ sortSameLine runA runB = true
    ∧ ¬sameLineGroup [runA, runB] runA runB := by
  refine ⟨by norm_num [runA, runB], by norm_num [sortSameLine, runA, runB], ?_⟩
  norm_num [sameLineGroup, groupLines, insertLine, lineMembers, runA, runB,
    TextItem.mk.injEq]

/-- C7 (amended). The line-grouping step uses a strict 5 px tolerance
(`< 5`) against the first run of a group, while the sort comparator treats
runs as the same line up to and including 5 px (`¬(> 5)`): for a pair of
qualifying runs the grouping step puts them in one line group exactly when
their Y difference is strictly below 5 px, whereas the comparator calls
them the same line exactly when it is at most 5 px. -/
theorem c7_tolerance_amended (r1 r2 : TextItem) :
    (sameLineGroup [r1, r2] r1 r2 ↔ |r1.y - r2.y| < 5)
    ∧ (sortSameLine r1 r2 = true ↔ |r1.y - r2.y| ≤ 5) := by
  constructor
  · unfold sameLineGroup groupLines
    simp only [List.foldl_cons, List.foldl_nil]
    by_cases h : |r1.y - r2.y| < 5
    · simp only [insertLine, if_pos h]
      simp only [lineMembers, List.mem_singleton]
      constructor
      · intro _
        exact h
      · intro _
        exact ⟨(r1, [r2]), by simp⟩
    · have hne : r1 ≠ r2 := by
        rintro rfl
        exact h (by simp)
      simp only [insertLine, if_neg h]
      simp only [lineMembers, List.mem_singleton]
      constructor
      · rintro ⟨g, hg, h1, h2⟩
        rcases List.mem_cons.mp hg with rfl | hg2
        · simp only [List.mem_cons, List.not_mem_nil, or_false] at h2
          exact absurd h2 (Ne.symm hne)
        · rcases List.mem_singleton.mp hg2 with rfl
          simp only [List.mem_cons, List.not_mem_nil, or_false] at h1
          exact absurd h1 hne
      · intro hlt
        exact absurd hlt h
  · simp only [sortSameLine, Bool.not_eq_true', decide_eq_false_iff_not, not_lt]

/-- C6. The resolver returns `none` whenever no run qualifies; a
degenerate selection (zero width or zero height) has zero intersection
area with every rectangle, and hence always yields `none`. -/
theorem c6_null_on_no_qualifier :
    (∀ (pg : ℕ) (pw ph : ℚ) (items : List TextItem) (sx sy ex ey : ℚ),
      (∀ i ∈ items, qualifies (mkSelRect sx sy ex ey) i = false) →
      getTextFromSelection pg pw ph items sx sy ex ey = none)
    ∧ (∀ (sx sy ex ey : ℚ) (r : Rect), sx = ex ∨ sy = ey →
      getIntersectionArea (mkSelRect sx sy ex ey) r = 0)
    ∧ (∀ (pg : ℕ) (pw ph : ℚ) (items : List TextItem) (sx sy ex ey : ℚ),
      sx = ex ∨ sy = ey →
      getTextFromSelection pg pw ph items sx sy ex ey = none) := by
  have hnone : ∀ (pg : ℕ) (pw ph : ℚ) (items : List TextItem) (sx sy ex ey : ℚ),
      (∀ i ∈ items, qualifies (mkSelRect sx sy ex ey) i = false) →
      getTextFromSelection pg pw ph items sx sy ex ey = none := by
    intro pg pw ph items sx sy ex ey hq
    have hfil : items.filter
        (fun i => !(isBlankStr i.str) && qualifies (mkSelRect sx sy ex ey) i) = [] := by
      rw [List.filter_eq_nil_iff]
      intro a ha
      rw [hq a ha]
      simp
    unfold getTextFromSelection
    rw [hfil]
    rfl
  have hinter : ∀ (sx sy ex ey : ℚ) (r : Rect), sx = ex ∨ sy = ey →
      getIntersectionArea (mkSelRect sx sy ex ey) r = 0 := by
    intro sx sy ex ey r h
    rcases h with rfl | rfl
    · simp only [getIntersectionArea, mkSelRect, min_self, max_self, sub_self, add_zero]
      rw [if_neg]
      rintro ⟨h1, -⟩
      have h2 := min_le_left sx (r.x + r.width)
      have h3 := le_max_left sx r.x
      linarith
    · simp only [getIntersectionArea, mkSelRect, min_self, max_self, sub_self, add_zero]
      rw [if_neg]
      rintro ⟨-, h1⟩
      have h2 := min_le_left sy (r.y + r.height)
      have h3 := le_max_left sy r.y
      linarith
  refine ⟨hnone, hinter, ?_⟩
  intro pg pw ph items sx sy ex ey h
  apply hnone
  intro i _
  simp only [qualifies]
  rw [hinter sx sy ex ey (itemRect i) h]
  simp

theorem c6_null_on_no_qualifier_witness :
    ((5 : ℚ) = 5 ∨ (0 : ℚ) = 10)
    ∧ getTextFromSelection 1 600 800 [⟨0, 0, 10, 10, "x", 0⟩] 5 0 5 10 = none :=
  ⟨Or.inl rfl,
    c6_null_on_no_qualifier.2.2 1 600 800 [⟨0, 0, 10, 10, "x", 0⟩] 5 0 5 10 (Or.inl rfl)⟩

theorem find_annot_unique {l : List StoreAnnot} {a : StoreAnnot} {annotId : String}
    (hnd : (l.map (fun x => x.annot_id)).Nodup) (ha : a ∈ l)
    (hid : a.annot_id = annotId) :
    l.find? (fun b => b.annot_id == annotId) = some a := by
  induction l with
  | nil => cases ha
  | cons x xs ih =>
    simp only [List.map_cons, List.nodup_cons] at hnd
    rcases List.mem_cons.mp ha with rfl | hmem
    · exact @List.find?_cons_of_pos _ (fun b => b.annot_id == annotId) a xs (by simp [hid])
    · have hx : ¬(x.annot_id == annotId) = true := by
        simp only [beq_iff_eq]
        intro he
        apply hnd.1
        rw [he, ← hid]
        exact List.mem_map_of_mem _ hmem
      rw [@List.find?_cons_of_neg _ (fun b => b.annot_id == annotId) x xs hx]
      exact ih hnd.2 hmem

/-- C9. Deleting by the id of a missing or non-user-created annotation
leaves the store unchanged; deleting a user-created annotation removes
exactly that annotation from the flat list and from its page's entry of
the page-indexed grouping, and every other annotation, page entry and
state field is unchanged. -/
theorem c9_delete_user_annot :
    (∀ (s : PdfStoreState) (annotId : String),
      (∀ a ∈ s.annots, a.annot_id = annotId → a.is_user_created = false) →
      deleteUserAnnot annotId s = s)
    ∧ (∀ (s : PdfStoreState) (annotId : String) (a : StoreAnnot),
      (s.annots.map (fun x => x.annot_id)).Nodup → a ∈ s.annots →
      a.annot_id = annotId → a.is_user_created = true →
      (deleteUserAnnot annotId s).annots
          = s.annots.filter (fun b => !(b.annot_id == annotId))
      ∧ a ∉ (deleteUserAnnot annotId s).annots
      ∧ (∀ b ∈ s.annots, b ≠ a → b ∈ (deleteUserAnnot annotId s).annots)
      ∧ (deleteUserAnnot annotId s).annotsByPage
          = s.annotsByPage.map (fun e =>
              if e.1 = a.page then
                (e.1, e.2.filter (fun b => !(b.annot_id == annotId)))
              else e)
      ∧ (∀ e ∈ s.annotsByPage, e.1 ≠ a.page →
          e ∈ (deleteUserAnnot annotId s).annotsByPage)
      ∧ (∀ e ∈ s.annotsByPage, ∀ b ∈ e.2, b.annot_id ≠ annotId →
          ∃ e2 ∈ (deleteUserAnnot annotId s).annotsByPage, e2.1 = e.1 ∧ b ∈ e2.2)
      ∧ (deleteUserAnnot annotId s).pdfDocument = s.pdfDocument
      ∧ (deleteUserAnnot annotId s).pdfMeta = s.pdfMeta
      ∧ (deleteUserAnnot annotId s).isLoading = s.isLoading
      ∧ (deleteUserAnnot annotId s).error = s.error
      ∧ (deleteUserAnnot annotId s).viewerState = s.viewerState) := by
  constructor
  · intro s annotId h
    unfold deleteUserAnnot
    cases hf : s.annots.find? (fun a => a.annot_id == annotId) with
    | none => rfl
    | some a =>
      have hmem := List.mem_of_find?_eq_some hf
      have hp := @List.find?_some _ (fun b => b.annot_id == annotId) a s.annots hf
      have hu : a.is_user_created = false := h a hmem (by simpa using hp)
      simp [hu]
  · intro s annotId a hnd ha hid hu
    have hf : s.annots.find? (fun b => b.annot_id == annotId) = some a :=
      find_annot_unique hnd ha hid
    have hdel : deleteUserAnnot annotId s =
        { s with
          annots := s.annots.filter (fun b => !(b.annot_id == annotId)),
          annotsByPage := s.annotsByPage.map (fun e =>
            if e.1 = a.page then
              (e.1, e.2.filter (fun b => !(b.annot_id == annotId)))
            else e) } := by
      unfold deleteUserAnnot
      rw [hf]
      simp [hu]
    rw [hdel]
    refine ⟨rfl, ?_, ?_, rfl, ?_, ?_, rfl, rfl, rfl, rfl, rfl⟩
    · intro hmem
      have h2 := (List.mem_filter.mp hmem).2
      rw [hid] at h2
      simp at h2
    · intro b hb hba
      apply List.mem_filter.mpr
      refine ⟨hb, ?_⟩
      simp only [Bool.not_eq_true', beq_eq_false_iff_ne, ne_eq]
      intro hbid
      exact hba (List.inj_on_of_nodup_map hnd hb ha (by rw [hbid, hid]))
    · intro e he hne
      exact List.mem_map.mpr ⟨e, he, by rw [if_neg hne]⟩
    · intro e he b hb hbid
      by_cases hp : e.1 = a.page
      · refine ⟨(e.1, e.2.filter (fun b => !(b.annot_id == annotId))), ?_, rfl, ?_⟩
        · exact List.mem_map.mpr ⟨e, he, by rw [if_pos hp]⟩
        · exact List.mem_filter.mpr ⟨hb, by simp [hbid]⟩
      · exact ⟨e, List.mem_map.mpr ⟨e, he, by rw [if_neg hp]⟩, rfl, hb⟩

theorem c9_delete_user_annot_witness :
    deleteUserAnnot "n1" sampleStore = sampleStore
    ∧ (deleteUserAnnot "u1" sampleStore).annots
        = sampleStore.annots.filter (fun b => !(b.annot_id == "u1")) :=
  ⟨c9_delete_user_annot.1 sampleStore "n1" (by decide),
    (c9_delete_user_annot.2 sampleStore "u1" userAnnot (by decide) (by decide)
      rfl rfl).1⟩

theorem mem_insertBy {le : α → α → Bool} {x a : α} {l : List α} :
    a ∈ insertBy le x l ↔ a = x ∨ a ∈ l := by
  induction l with
  | nil => simp [insertBy]
  | cons y ys ih =>
    unfold insertBy
    by_cases h : le y x = true
    · rw [if_pos h]
      simp only [List.mem_cons, ih]
      tauto
    · rw [if_neg h]
      simp only [List.mem_cons]

theorem mem_foldl_insertBy {le : α → α → Bool} (l acc : List α) (a : α) :
    a ∈ l.foldl (fun acc x => insertBy le x acc) acc ↔ a ∈ l ∨ a ∈ acc := by
  induction l generalizing acc with
  | nil => simp
  | cons x xs ih =>
    rw [List.foldl_cons, ih]
    simp only [mem_insertBy, List.mem_cons]
    tauto

theorem mem_sortBy {le : α → α → Bool} {a : α} {l : List α} :
    a ∈ sortBy le l ↔ a ∈ l := by
  unfold sortBy
  rw [mem_foldl_insertBy]
  simp

theorem foldl_min_le (l : List ℚ) (x : ℚ) :
    l.foldl min x ≤ x ∧ ∀ y ∈ l, l.foldl min x ≤ y := by
  induction l generalizing x with
  | nil => simp
  | cons z zs ih =>
    rw [List.foldl_cons]
    refine ⟨le_trans (ih (min x z)).1 (min_le_left x z), ?_⟩
    intro y hy
    rcases List.mem_cons.mp hy with rfl | hy2
    · exact le_trans (ih (min x y)).1 (min_le_right x y)
    · exact (ih (min x z)).2 y hy2

theorem foldl_min_mem (l : List ℚ) (x : ℚ) : l.foldl min x ∈ x :: l := by
  induction l generalizing x with
  | nil => simp
  | cons z zs ih =>
    rw [List.foldl_cons]
    have h := ih (min x z)
    rcases List.mem_cons.mp h with he | hm
    · rcases min_choice x z with h1 | h1
      · rw [he, h1]
        exact List.mem_cons_self _ _
      · rw [he, h1]
        simp
    · simp [List.mem_cons_of_mem, hm]

theorem minList_eq {l : List ℚ} {a : ℚ} (hmem : a ∈ l) (hlb : ∀ y ∈ l, a ≤ y) :
    minList l = a := by
  cases l with
  | nil => cases hmem
  | cons x rest =>
    unfold minList
    apply le_antisymm
    · rcases List.mem_cons.mp hmem with rfl | hm
      · exact (foldl_min_le rest a).1
      · exact (foldl_min_le rest x).2 a hm
    · exact hlb _ (foldl_min_mem rest x)

theorem foldl_max_le (l : List ℚ) (x : ℚ) :
    x ≤ l.foldl max x ∧ ∀ y ∈ l, y ≤ l.foldl max x := by
  induction l generalizing x with
  | nil => simp
  | cons z zs ih =>
    rw [List.foldl_cons]
    refine ⟨le_trans (le_max_left x z) (ih (max x z)).1, ?_⟩
    intro y hy
    rcases List.mem_cons.mp hy with rfl | hy2
    · exact le_trans (le_max_right x y) (ih (max x y)).1
    · exact (ih (max x z)).2 y hy2

theorem foldl_max_mem (l : List ℚ) (x : ℚ) : l.foldl max x ∈ x :: l := by
  induction l generalizing x with
  | nil => simp
  | cons z zs ih =>
    rw [List.foldl_cons]
    have h := ih (max x z)
    rcases List.mem_cons.mp h with he | hm
    · rcases max_choice x z with h1 | h1
      · rw [he, h1]
        exact List.mem_cons_self _ _
      · rw [he, h1]
        simp
    · simp [List.mem_cons_of_mem, hm]

theorem maxList_eq {l : List ℚ} {a : ℚ} (hmem : a ∈ l) (hub : ∀ y ∈ l, y ≤ a) :
    maxList l = a := by
  cases l with
  | nil => cases hmem
  | cons x rest =>
    unfold maxList
    apply le_antisymm
    · exact hub _ (foldl_max_mem rest x)
    · rcases List.mem_cons.mp hmem with rfl | hm
      · exact (foldl_max_le rest a).1
      · exact (foldl_max_le rest x).2 a hm

theorem computeBbox_eq {l : List TextItem} {selL selT selR selB : ℚ}
    (hLR : selL ≤ selR) (hTB : selT ≤ selB)
    (hx : ∀ i ∈ l, max i.x selL ≤ selR ∧ selL ≤ min (i.x + i.width) selR)
    (hy : ∀ i ∈ l, max i.y selT ≤ selB ∧ selT ≤ min (i.y + i.height) selB) :
    computeBbox l selL selT selR selB = ⟨selL, selT, selR - selL, selB - selT⟩ := by
  have hminX : minList
      ((l.map (fun i => [max i.x selL, min (i.x + i.width) selR])).flatten
        ++ [selL, selR]) = selL := by
    apply minList_eq
    · simp
    · intro y hyv
      rcases List.mem_append.mp hyv with h1 | h2
      · rcases List.mem_flatten.mp h1 with ⟨s, hs, hys⟩
        rcases List.mem_map.mp hs with ⟨i, hi, rfl⟩
        rcases List.mem_cons.mp hys with rfl | hys2
        · exact le_max_right _ _
        · rcases List.mem_singleton.mp hys2 with rfl
          exact (hx i hi).2
      · rcases List.mem_cons.mp h2 with rfl | h3
        · exact le_refl _
        · rcases List.mem_singleton.mp h3 with rfl
          exact hLR
  have hmaxX : maxList
      ((l.map (fun i => [max i.x selL, min (i.x + i.width) selR])).flatten
        ++ [selL, selR]) = selR := by
    apply maxList_eq
    · simp
    · intro y hyv
      rcases List.mem_append.mp hyv with h1 | h2
      · rcases List.mem_flatten.mp h1 with ⟨s, hs, hys⟩
        rcases List.mem_map.mp hs with ⟨i, hi, rfl⟩
        rcases List.mem_cons.mp hys with rfl | hys2
        · exact (hx i hi).1
        · rcases List.mem_singleton.mp hys2 with rfl
          exact min_le_right _ _
      · rcases List.mem_cons.mp h2 with rfl | h3
        · exact hLR
        · rcases List.mem_singleton.mp h3 with rfl
          exact le_refl _
  have hminY : minList
      ((l.map (fun i => [max i.y selT, min (i.y + i.height) selB])).flatten
        ++ [selT, selB]) = selT := by
    apply minList_eq
    · simp
    · intro y hyv
      rcases List.mem_append.mp hyv with h1 | h2
      · rcases List.mem_flatten.mp h1 with ⟨s, hs, hys⟩
        rcases List.mem_map.mp hs with ⟨i, hi, rfl⟩
        rcases List.mem_cons.mp hys with rfl | hys2
        · exact le_max_right _ _
        · rcases List.mem_singleton.mp hys2 with rfl
          exact (hy i hi).2
      · rcases List.mem_cons.mp h2 with rfl | h3
        · exact le_refl _
        · rcases List.mem_singleton.mp h3 with rfl
          exact hTB
  have hmaxY : maxList
      ((l.map (fun i => [max i.y selT, min (i.y + i.height) selB])).flatten
        ++ [selT, selB]) = selB := by
    apply maxList_eq
    · simp
    · intro y hyv
      rcases List.mem_append.mp hyv with h1 | h2
      · rcases List.mem_flatten.mp h1 with ⟨s, hs, hys⟩
        rcases List.mem_map.mp hs with ⟨i, hi, rfl⟩
        rcases List.mem_cons.mp hys with rfl | hys2
        · exact (hy i hi).1
        · rcases List.mem_singleton.mp hys2 with rfl
          exact min_le_right _ _
      · rcases List.mem_cons.mp h2 with rfl | h3
        · exact hTB
        · rcases List.mem_singleton.mp h3 with rfl
          exact le_refl _
  simp only [computeBbox]
  rw [hminX, hmaxX, hminY, hmaxY]

theorem qualifies_bounds {sx sy ex ey : ℚ} {i : TextItem}
    (hq : qualifies (mkSelRect sx sy ex ey) i = true) :
    (max i.x (min sx ex) ≤ max sx ex ∧ min sx ex ≤ min (i.x + i.width) (max sx ex))
    ∧ (max i.y (min sy ey) ≤ max sy ey
        ∧ min sy ey ≤ min (i.y + i.height) (max sy ey)) := by
  have hint : 0 < getIntersectionArea (mkSelRect sx sy ex ey) (itemRect i) := by
    unfold qualifies at hq
    simp only [Bool.and_eq_true, decide_eq_true_eq] at hq
    exact hq.1.1
  unfold getIntersectionArea mkSelRect itemRect at hint
  simp only at hint
  have hw : min sx ex + (max sx ex - min sx ex) = max sx ex := by ring
  have hh : min sy ey + (max sy ey - min sy ey) = max sy ey := by ring
  rw [hw, hh] at hint
  by_cases hc : max (min sx ex) i.x < min (max sx ex) (i.x + i.width)
      ∧ max (min sy ey) i.y < min (max sy ey) (i.y + i.height)
  · have hx1 := le_max_left (min sx ex) i.x
    have hx2 := le_max_right (min sx ex) i.x
    have hx3 := min_le_left (max sx ex) (i.x + i.width)
    have hx4 := min_le_right (max sx ex) (i.x + i.width)
    have hy1 := le_max_left (min sy ey) i.y
    have hy2 := le_max_right (min sy ey) i.y
    have hy3 := min_le_left (max sy ey) (i.y + i.height)
    have hy4 := min_le_right (max sy ey) (i.y + i.height)
    rw [max_comm i.x (min sx ex), max_comm i.y (min sy ey),
      min_comm (i.x + i.width) (max sx ex), min_comm (i.y + i.height) (max sy ey)]
    exact ⟨⟨by linarith [hc.1], by linarith [hc.1]⟩,
      ⟨by linarith [hc.2], by linarith [hc.2]⟩⟩
  · rw [if_neg hc] at hint
    exact absurd hint (lt_irrefl 0)

/-- C10. Whenever the resolver returns a result, the returned bounding box
is exactly the normalized selection rectangle: the raw selection bounds are
always added to the candidate point set and every clipped run corner lies
within them. -/
theorem c10_bbox_is_selection_rect (pg : ℕ) (pw ph : ℚ) (items : List TextItem)
    (sx sy ex ey : ℚ) (res : TextSelResult)
    (h : getTextFromSelection pg pw ph items sx sy ex ey = some res) :
    res.bbox = ⟨min sx ex, min sy ey, |ex - sx|, |ey - sy|⟩ := by
  unfold getTextFromSelection at h
  cases hfil : items.filter
      (fun i => !(isBlankStr i.str) && qualifies (mkSelRect sx sy ex ey) i) with
  | nil =>
    rw [hfil] at h
    cases h
  | cons hd tl =>
    rw [hfil] at h
    unfold resolveCore at h
    simp only [] at h
    have hres := (Option.some.injEq _ _).mp h
    have hbbox : res.bbox
        = computeBbox (sortBy runLe (hd :: tl)) (min sx ex) (min sy ey)
            (max sx ex) (max sy ey) := by
      rw [← hres]
    rw [hbbox]
    have hq : ∀ i ∈ sortBy runLe (hd :: tl),
        qualifies (mkSelRect sx sy ex ey) i = true := by
      intro i hi
      have hi2 : i ∈ items.filter
          (fun i => !(isBlankStr i.str) && qualifies (mkSelRect sx sy ex ey) i) := by
        rw [hfil]
        exact mem_sortBy.mp hi
      have := (List.mem_filter.mp hi2).2
      simp only [Bool.and_eq_true] at this
      exact this.2
    have heq := computeBbox_eq (l := sortBy runLe (hd :: tl))
      (min_le_max) (min_le_max)
      (fun i hi => (qualifies_bounds (hq i hi)).1)
      (fun i hi => (qualifies_bounds (hq i hi)).2)
    rw [heq, max_sub_min_eq_abs_sub, max_sub_min_eq_abs_sub]

theorem c10_bbox_is_selection_rect_witness :
    getTextFromSelection 1 600 800 [runFull] 0 0 30 10 = some resFull
    ∧ resFull.bbox = ⟨min 0 30, min 0 10, |(30 : ℚ) - 0|, |(10 : ℚ) - 0|⟩ := by
  have hEval : getTextFromSelection 1 600 800 [runFull] 0 0 30 10 = some resFull := by
    have h1 : isBlankStr "A" = false := by decide
    norm_num [getTextFromSelection, resolveCore, qualifies, mkSelRect,
      getIntersectionArea, itemRect, itemArea, h1, sortBy, insertBy, runLe,
      assembleText, assembleGo, jsOrZero, List.filter, computeBbox, computeQuads,
      groupLines, insertLine, lineMembers, lineQuad, minList, maxList,
      normalizeBbox, normalizeQuad, runFull, resFull]
  exact ⟨hEval, c10_bbox_is_selection_rect 1 600 800 [runFull] 0 0 30 10 resFull hEval⟩

end AnnotViewer
